import Mathlib

/-!
Verification of the firejail D-Bus proxy-mediation subsystem
(`src/firejail/dbus.c`) against its natural-language specification.

C strings are modelled as `List Char` (the profile lines and bus names
handled here are NUL-free byte strings; each `Char` stands for one byte).
The process-wide handle made of the four globals `dbus_proxy_pid`,
`dbus_proxy_status_fd`, `dbus_user_proxy_socket` and
`dbus_system_proxy_socket` is modelled as an explicit `ProxyState` record
threaded through the operations, and side effects (pipe writes, mounts,
process aborts) are modelled as explicit event traces.
-/

namespace FirejailDbus

/-! ## NameGrammar: `dbus_check_name` (dbus.c lines 50-79) -/

/-- `(*p >= 'a' && *p <= 'z') || (*p >= 'A' && *p <= 'Z')` (dbus.c line 58). -/
def c_alpha (c : Char) : Bool :=
  ('a' ≤ c && c ≤ 'z') || ('A' ≤ c && c ≤ 'Z')

/-- `*p >= '0' && *p <= '9'` (dbus.c line 59). -/
def c_digit (c : Char) : Bool :=
  '0' ≤ c && c ≤ '9'

/-- The `while (*p)` loop of `dbus_check_name` (dbus.c lines 57-78), with the
locals `segments` and `in_segment` as accumulator arguments.  On `'*'` in
start-of-segment position the C code returns `*(p + 1) == '\0'`, i.e. it
accepts iff the wildcard is the final character. -/
def dbus_check_loop : List Char → Nat → Bool → Bool
  | [], segments, in_seg => in_seg && decide (2 ≤ segments)
  | c :: rest, segments, in_seg =>
    if in_seg then
      if c = '.' then dbus_check_loop rest (segments + 1) false
      else if !c_alpha c && !c_digit c && c ≠ '_' && c ≠ '-' then false
      else dbus_check_loop rest segments true
    else
      if c = '*' then rest.isEmpty
      else if !c_alpha c && c ≠ '_' && c ≠ '-' then false
      else dbus_check_loop rest segments true

/-- `dbus_check_name` (dbus.c lines 50-79): rejects empty and over-255-byte
names up front, then runs the segment automaton with `segments = 1`,
`in_segment = 0`. -/
def dbus_check_name (name : List Char) : Bool :=
  if name.length = 0 || 255 < name.length then false
  else dbus_check_loop name 1 false

/-! ## Spec-side name grammar (spec.md section 4.1, for the refinement claim) -/

/-- Spec: "an ASCII letter". -/
def isAsciiLetter (c : Char) : Bool :=
  ('A' ≤ c && c ≤ 'Z') || ('a' ≤ c && c ≤ 'z')

/-- Spec: an ASCII digit. -/
def isAsciiDigit (c : Char) : Bool :=
  '0' ≤ c && c ≤ '9'

/-- Spec: "each segment's first character is an ASCII letter, underscore, or
hyphen". -/
def validSegStart (c : Char) : Bool :=
  isAsciiLetter c || c = '_' || c = '-'

/-- Spec: "subsequent characters are ASCII letters, digits, underscore, or
hyphen". -/
def validSegChar (c : Char) : Bool :=
  isAsciiLetter c || isAsciiDigit c || c = '_' || c = '-'

/-- Spec: one dot-separated segment, matching `[A-Za-z_-][A-Za-z0-9_-]*`. -/
def validSeg : List Char → Bool
  | [] => false
  | c :: cs => validSegStart c && cs.all validSegChar

/-- The dot-separated pieces of a string (what "composed of dot-separated
segments" refers to); `splitOnDot s` is the list of maximal dot-free runs,
with an empty piece between adjacent dots and at a leading or trailing dot. -/
def splitOnDot : List Char → List (List Char)
  | [] => [[]]
  | c :: rest =>
    if c = '.' then [] :: splitOnDot rest
    else (c :: (splitOnDot rest).headD []) :: (splitOnDot rest).tail

/-- Spec-side validity, length aside: either (a) at least two dot-separated
segments, each matching the segment grammar, or (b) the final dot-separated
piece is exactly `"*"` (a `*` sitting where a new segment would start, as
the final character of the string) and every completed segment before it
obeys the segment rules. -/
def specNameBody (s : List Char) : Bool :=
  (decide (2 ≤ (splitOnDot s).length) && (splitOnDot s).all validSeg) ||
    (decide ((splitOnDot s).getLast? = some ['*']) &&
      (splitOnDot s).dropLast.all validSeg)

/-- Spec-side validity (spec.md section 4.1 / section 8, claim C2): 1-255
bytes and the segment/wildcard grammar `specNameBody`. -/
def specValidName (s : List Char) : Bool :=
  (decide (1 ≤ s.length) && decide (s.length ≤ 255)) && specNameBody s

theorem splitOnDot_ne_nil (s : List Char) : splitOnDot s ≠ [] := by
  cases s with
  | nil => simp [splitOnDot]
  | cons c rest =>
    by_cases h : c = '.' <;> simp [splitOnDot, h]

theorem splitOnDot_eq_single_nil (s : List Char) : splitOnDot s = [[]] ↔ s = [] := by
  cases s with
  | nil => simp [splitOnDot]
  | cons c rest =>
    by_cases h : c = '.'
    · simp only [splitOnDot, if_pos h, List.cons.injEq]
      constructor
      · rintro ⟨-, hx⟩
        exact absurd hx (splitOnDot_ne_nil rest)
      · intro hx; cases hx
    · simp [splitOnDot, h]

/-- What the automaton accepts from start-of-segment state with `segments = k`
counted so far, phrased through the spec's dot-separated-segments view.
`3 ≤ k + length` says the final segment count `k + (number of dots)` is at
least 2. -/
def StartAccept (s : List Char) (k : Nat) : Prop :=
  ((splitOnDot s).all validSeg = true ∧ 3 ≤ k + (splitOnDot s).length)
  ∨ ((splitOnDot s).getLast? = some ['*'] ∧ (splitOnDot s).dropLast.all validSeg = true)

/-- What the automaton accepts from within-a-segment state with `segments = k`:
the rest of the current segment, then either further valid segments with the
count reaching 2, or a dot-terminated run of valid segments and a final
wildcard piece. -/
def InAccept (s : List Char) (k : Nat) : Prop :=
  ((splitOnDot s).headD []).all validSegChar = true ∧
  ( ((splitOnDot s).tail.all validSeg = true ∧ 3 ≤ k + (splitOnDot s).length)
  ∨ ((splitOnDot s).tail.getLast? = some ['*'] ∧
      (splitOnDot s).tail.dropLast.all validSeg = true) )

theorem validSegStart_iff (c : Char) :
    validSegStart c = true ↔ (c_alpha c = true ∨ c = '_' ∨ c = '-') := by
  simp only [validSegStart, isAsciiLetter, c_alpha, Bool.or_eq_true,
    Bool.and_eq_true, decide_eq_true_eq]
  tauto

theorem validSegChar_iff (c : Char) :
    validSegChar c = true ↔
      (c_alpha c = true ∨ c_digit c = true ∨ c = '_' ∨ c = '-') := by
  simp only [validSegChar, isAsciiLetter, isAsciiDigit, c_alpha, c_digit,
    Bool.or_eq_true, Bool.and_eq_true, decide_eq_true_eq]
  tauto

theorem check_loop_spec (s : List Char) : ∀ k : Nat,
    (dbus_check_loop s k false = true ↔ StartAccept s k) ∧
    (dbus_check_loop s k true = true ↔ InAccept s k) := by
  induction s with
  | nil =>
    intro k
    constructor
    · simp [dbus_check_loop, StartAccept, splitOnDot, validSeg]
    · constructor
      · intro hk
        have hk' : 2 ≤ k := by simpa [dbus_check_loop] using hk
        unfold InAccept
        simp [splitOnDot]
        omega
      · intro hin
        unfold InAccept at hin
        simp [splitOnDot] at hin
        simp [dbus_check_loop]
        omega
  | cons c rest ih =>
    intro k
    obtain ⟨h, t, hsplit⟩ : ∃ h t, splitOnDot rest = h :: t := by
      cases hx : splitOnDot rest with
      | nil => exact absurd hx (splitOnDot_ne_nil rest)
      | cons a b => exact ⟨a, b, rfl⟩
    by_cases hdot : c = '.'
    · subst hdot
      have hstart : splitOnDot ('.' :: rest) = [] :: h :: t := by
        simp [splitOnDot, hsplit]
      constructor
      · -- start state on '.': reject
        have hrej : dbus_check_loop ('.' :: rest) k false = false := by
          simp [dbus_check_loop, c_alpha, c_digit]
        rw [hrej]
        simp only [Bool.false_eq_true, false_iff, StartAccept, hstart]
        rintro (⟨hall, -⟩ | ⟨hlast, hdrop⟩)
        · simp [validSeg] at hall
        · -- dropLast ([] :: h :: t) starts with the empty piece, not a segment
          have : validSeg [] = true := by
            have hd : ([] : List Char) ∈ ([] :: h :: t).dropLast := by
              simp [List.dropLast]
            exact (List.all_eq_true.mp hdrop) _ hd
          simp [validSeg] at this
      · -- in state on '.': close segment, continue at start state with k+1
        have hstep : dbus_check_loop ('.' :: rest) k true
            = dbus_check_loop rest (k + 1) false := by
          simp [dbus_check_loop]
        rw [hstep, ((ih (k + 1)).1)]
        simp only [InAccept, StartAccept, hstart, hsplit, List.headD,
          List.tail, List.all_nil, List.length_cons, true_and]
        constructor
        · rintro (⟨ha, hk⟩ | hw)
          · exact Or.inl ⟨ha, by omega⟩
          · exact Or.inr hw
        · rintro (⟨ha, hk⟩ | hw)
          · exact Or.inl ⟨ha, by omega⟩
          · exact Or.inr hw
    · have hstart : splitOnDot (c :: rest) = (c :: h) :: t := by
        simp [splitOnDot, hdot, hsplit]
      by_cases hstarc : c = '*'
      · subst hstarc
        constructor
        · -- start state on '*': accept iff nothing follows
          have hstep : dbus_check_loop ('*' :: rest) k false = rest.isEmpty := by
            simp [dbus_check_loop]
          rw [hstep]
          constructor
          · intro hemp
            have hrest : rest = [] := by
              cases rest with
              | nil => rfl
              | cons a b => simp [List.isEmpty] at hemp
            subst hrest
            have : splitOnDot ('*' :: ([] : List Char)) = [['*']] := by
              simp [splitOnDot]
            exact Or.inr (by simp [StartAccept, this] )
          · rintro (⟨hall, -⟩ | ⟨hlast, hdrop⟩)
            · rw [hstart] at hall
              have : validSeg ('*' :: h) = true := by
                simpa using (List.all_eq_true.mp hall) _ (by simp)
              rw [show validSeg ('*' :: h) = (validSegStart '*' && h.all validSegChar) from rfl] at this
              have h2 : validSegStart '*' = true := by
                cases hx : validSegStart '*' <;> simp [hx] at this ⊢
              simp [validSegStart, isAsciiLetter] at h2
            · rw [hstart] at hlast hdrop
              cases t with
              | nil =>
                -- the only piece is '*' :: h and it must be exactly ['*']
                simp only [List.getLast?] at hlast
                have hh : h = [] := by
                  have := hlast
                  simp at this
                  exact this
                have : rest = [] := by
                  have : splitOnDot rest = [[]] := by rw [hsplit, hh]
                  exact (splitOnDot_eq_single_nil rest).mp this
                subst this
                simp [List.isEmpty]
              | cons t0 ts =>
                have : validSeg ('*' :: h) = true := by
                  have hd : ('*' :: h) ∈ (('*' :: h) :: t0 :: ts).dropLast := by
                    simp [List.dropLast]
                  exact (List.all_eq_true.mp hdrop) _ hd
                rw [show validSeg ('*' :: h) = (validSegStart '*' && h.all validSegChar) from rfl] at this
                have h2 : validSegStart '*' = true := by
                  cases hx : validSegStart '*' <;> simp [hx] at this ⊢
                simp [validSegStart, isAsciiLetter] at h2
        · -- in state on '*': reject ('*' is not a segment character)
          have hrej : dbus_check_loop ('*' :: rest) k true = false := by
            simp [dbus_check_loop, c_alpha, c_digit]
          rw [hrej]
          simp only [Bool.false_eq_true, false_iff, InAccept, hstart, List.headD]
          rintro ⟨hall, -⟩
          have : validSegChar '*' = true := by
            simpa using (List.all_eq_true.mp hall) _ (by simp)
          simp [validSegChar, isAsciiLetter, isAsciiDigit] at this
      · -- c is neither '.' nor '*'
        by_cases hok : validSegStart c = true
        · -- valid segment-start character: enter the segment
          have hcal : (c_alpha c = true ∨ c = '_' ∨ c = '-') :=
            (validSegStart_iff c).mp hok
          have hstep : dbus_check_loop (c :: rest) k false
              = dbus_check_loop rest k true := by
            rcases hcal with hx | hx | hx <;>
              simp [dbus_check_loop, hstarc, hx]
          have hstep2 : dbus_check_loop (c :: rest) k true
              = dbus_check_loop rest k true := by
            rcases hcal with hx | hx | hx <;>
              simp [dbus_check_loop, hdot, hx]
          have hchar : validSegChar c = true :=
            (validSegChar_iff c).mpr (by tauto)
          constructor
          · rw [hstep, ((ih k).2)]
            simp only [StartAccept, InAccept, hstart, hsplit, List.headD,
              List.tail, List.length_cons, List.all_cons]
            constructor
            · rintro ⟨hh, (⟨ht, hk⟩ | ⟨hlast, hdrop⟩)⟩
              · exact Or.inl ⟨by simp [validSeg, hok, hh, ht], by omega⟩
              · refine Or.inr ⟨?_, ?_⟩
                · cases t with
                  | nil => cases hlast
                  | cons t0 ts => simpa [List.getLast?] using hlast
                · cases t with
                  | nil => cases hlast
                  | cons t0 ts =>
                    simp only [List.dropLast] at hdrop ⊢
                    simp [validSeg, hok, hh, hdrop]
            · rintro (⟨hall, hk⟩ | ⟨hlast, hdrop⟩)
              · have h1 : validSeg (c :: h) = true ∧ t.all validSeg = true := by
                  simpa using hall
                have hh : h.all validSegChar = true := by
                  have := h1.1
                  rw [show validSeg (c :: h) = (validSegStart c && h.all validSegChar) from rfl] at this
                  simpa [hok] using this
                exact ⟨hh, Or.inl ⟨h1.2, by omega⟩⟩
              · cases t with
                | nil =>
                  -- last piece is c :: h which cannot be ['*'] since c ≠ '*'
                  exfalso
                  simp only [List.getLast?] at hlast
                  have : c :: h = ['*'] := by simpa using hlast
                  exact hstarc (by injection this)
                | cons t0 ts =>
                  have hlast' : (t0 :: ts).getLast? = some ['*'] := by
                    simpa [List.getLast?] using hlast
                  have hdrop' : validSeg (c :: h) = true
                      ∧ ((t0 :: ts).dropLast).all validSeg = true := by
                    simpa [List.dropLast] using hdrop
                  have hh : h.all validSegChar = true := by
                    have := hdrop'.1
                    rw [show validSeg (c :: h) = (validSegStart c && h.all validSegChar) from rfl] at this
                    simpa [hok] using this
                  exact ⟨hh, Or.inr ⟨hlast', hdrop'.2⟩⟩
          · rw [hstep2, ((ih k).2)]
            simp only [InAccept, hstart, hsplit, List.headD, List.tail,
              List.length_cons, List.all_cons, hchar, Bool.true_and]
        · -- invalid segment-start character
          by_cases hdig : c_digit c = true
          · -- a digit: invalid at segment start, valid inside a segment
            have hchar : validSegChar c = true :=
              (validSegChar_iff c).mpr (by tauto)
            have hnal : c_alpha c = false := by
              cases hx : c_alpha c
              · rfl
              · exact absurd ((validSegStart_iff c).mpr (Or.inl hx)) hok
            have hnund : ¬ (c = '_') := fun hx =>
              hok ((validSegStart_iff c).mpr (Or.inr (Or.inl hx)))
            have hnhyp : ¬ (c = '-') := fun hx =>
              hok ((validSegStart_iff c).mpr (Or.inr (Or.inr hx)))
            constructor
            · have hrej : dbus_check_loop (c :: rest) k false = false := by
                simp [dbus_check_loop, hstarc, hnal, hnund, hnhyp]
              rw [hrej]
              simp only [Bool.false_eq_true, false_iff, StartAccept, hstart]
              rintro (⟨hall, -⟩ | ⟨hlast, hdrop⟩)
              · have : validSeg (c :: h) = true := by
                  simpa using (List.all_eq_true.mp hall) _ (by simp)
                rw [show validSeg (c :: h) = (validSegStart c && h.all validSegChar) from rfl] at this
                simp only [Bool.and_eq_true] at this
                exact hok this.1
              · cases t with
                | nil =>
                  simp only [List.getLast?] at hlast
                  have : c :: h = ['*'] := by simpa using hlast
                  exact hstarc (by injection this)
                | cons t0 ts =>
                  have : validSeg (c :: h) = true := by
                    have hd : (c :: h) ∈ ((c :: h) :: t0 :: ts).dropLast := by
                      simp [List.dropLast]
                    exact (List.all_eq_true.mp hdrop) _ hd
                  rw [show validSeg (c :: h) = (validSegStart c && h.all validSegChar) from rfl] at this
                  simp only [Bool.and_eq_true] at this
                  exact hok this.1
            · have hstep2 : dbus_check_loop (c :: rest) k true
                  = dbus_check_loop rest k true := by
                simp [dbus_check_loop, hdot, hdig]
              rw [hstep2, ((ih k).2)]
              simp only [InAccept, hstart, hsplit, List.headD, List.tail,
                List.length_cons, List.all_cons, hchar, Bool.true_and]
          · -- fully invalid character: reject in both states
            have hnal : c_alpha c = false := by
              cases hx : c_alpha c
              · rfl
              · exact absurd ((validSegStart_iff c).mpr (Or.inl hx)) hok
            have hndig : c_digit c = false := by
              cases hx : c_digit c
              · rfl
              · exact absurd hx hdig
            have hnund : ¬ (c = '_') := fun hx =>
              hok ((validSegStart_iff c).mpr (Or.inr (Or.inl hx)))
            have hnhyp : ¬ (c = '-') := fun hx =>
              hok ((validSegStart_iff c).mpr (Or.inr (Or.inr hx)))
            have hnchar : ¬ (validSegChar c = true) := by
              intro hx
              rcases (validSegChar_iff c).mp hx with hy | hy | hy | hy
              · rw [hnal] at hy; cases hy
              · rw [hndig] at hy; cases hy
              · exact hnund hy
              · exact hnhyp hy
            constructor
            · have hrej : dbus_check_loop (c :: rest) k false = false := by
                simp [dbus_check_loop, hstarc, hnal, hnund, hnhyp]
              rw [hrej]
              simp only [Bool.false_eq_true, false_iff, StartAccept, hstart]
              rintro (⟨hall, -⟩ | ⟨hlast, hdrop⟩)
              · have : validSeg (c :: h) = true := by
                  simpa using (List.all_eq_true.mp hall) _ (by simp)
                rw [show validSeg (c :: h) = (validSegStart c && h.all validSegChar) from rfl] at this
                simp only [Bool.and_eq_true] at this
                exact hok this.1
              · cases t with
                | nil =>
                  simp only [List.getLast?] at hlast
                  have : c :: h = ['*'] := by simpa using hlast
                  exact hstarc (by injection this)
                | cons t0 ts =>
                  have : validSeg (c :: h) = true := by
                    have hd : (c :: h) ∈ ((c :: h) :: t0 :: ts).dropLast := by
                      simp [List.dropLast]
                    exact (List.all_eq_true.mp hdrop) _ hd
                  rw [show validSeg (c :: h) = (validSegStart c && h.all validSegChar) from rfl] at this
                  simp only [Bool.and_eq_true] at this
                  exact hok this.1
            · have hrej : dbus_check_loop (c :: rest) k true = false := by
                simp [dbus_check_loop, hdot, hnal, hndig, hnund, hnhyp]
              rw [hrej]
              simp only [Bool.false_eq_true, false_iff, InAccept, hstart, List.headD]
              rintro ⟨hall, -⟩
              have : validSegChar c = true := by
                simpa using (List.all_eq_true.mp hall) _ (by simp)
              exact hnchar this

theorem startAccept_iff_body (s : List Char) :
    StartAccept s 1 ↔ specNameBody s = true := by
  unfold StartAccept specNameBody
  simp only [Bool.or_eq_true, Bool.and_eq_true, decide_eq_true_eq]
  constructor
  · rintro (⟨ha, hk⟩ | hw)
    · exact Or.inl ⟨by omega, ha⟩
    · exact Or.inr hw
  · rintro (⟨hk, ha⟩ | hw)
    · exact Or.inl ⟨ha, by omega⟩
    · exact Or.inr hw

/-- C2: for every string, `dbus_check_name` returns true iff the string is
1-255 bytes long and either consists of at least two dot-separated segments,
each matching `[A-Za-z_-][A-Za-z0-9_-]*`, or is a (possibly empty) run of
such complete dot-terminated segments followed by a lone trailing `*` in
segment-start position — the wildcard case succeeding without requiring two
segments. -/
theorem dbus_check_name_matches_spec (s : List Char) :
    dbus_check_name s = specValidName s := by
  have hlc := (check_loop_spec s 1).1
  unfold dbus_check_name specValidName
  by_cases h0 : s.length = 0
  · simp [h0]
  · by_cases h255 : 255 < s.length
    · have hnle : ¬ (s.length ≤ 255) := by omega
      simp [h0, h255, hnle]
    · rw [if_neg (by simp [h0, h255])]
      have hright : (decide (1 ≤ s.length) && decide (s.length ≤ 255)) = true := by
        simp only [Bool.and_eq_true, decide_eq_true_eq]
        omega
      rw [hright, Bool.true_and]
      cases hx : dbus_check_loop s 1 false with
      | true => exact ((startAccept_iff_body s).mp (hlc.mp hx)).symm
      | false =>
        cases hy : specNameBody s with
        | false => rfl
        | true =>
          have := hlc.mpr ((startAccept_iff_body s).mpr hy)
          rw [hx] at this
          cases this

/-- Spec section 8 examples, checked against the embedded `dbus_check_name`:
`"org.freedesktop.DBus"` and `"org.*"` are valid; `"org"`, `"org..Bus"`,
`"org.Bus*"`, `""` and a 256-byte name are not. -/
theorem dbus_check_name_examples :
    dbus_check_name "org.freedesktop.DBus".toList = true
    ∧ dbus_check_name "org.*".toList = true
    ∧ dbus_check_name "org".toList = false
    ∧ dbus_check_name "org..Bus".toList = false
    ∧ dbus_check_name "org.Bus*".toList = false
    ∧ dbus_check_name "".toList = false
    ∧ dbus_check_name (List.replicate 256 'a') = false := by
  refine ⟨by decide, by decide, by decide, by decide, by decide, by decide, ?_⟩
  unfold dbus_check_name
  have hlen : (List.replicate 256 'a').length = 256 := List.length_replicate 256 'a'
  rw [hlen]
  decide

/-- C3 counterexample: the claim says `dbus_check_name "*"` is false, but the
code accepts a lone leading wildcard that is the final character
(dbus.c line 70 returns `*(p + 1) == '\0'`), so it returns true. -/
theorem dbus_check_name_star_counterexample : dbus_check_name ['*'] = true := by
  decide

/-- C3 amended: `dbus_check_name` applied to the one-character string `"*"`
returns true — a bare wildcard in first (segment-start) position with
nothing after it is accepted immediately. -/
theorem dbus_check_name_star : dbus_check_name ['*'] = true := by
  decide

/-! ## RuleExtractor: `dbus_check_bus_profile` (dbus.c lines 81-112) and
`write_profile` (dbus.c lines 135-151).

The profile (`cfg.profile`) is modelled as the ordered list of its line
strings; the `DbusPolicy` C enum has the three values used by this file (the
`default:` branch of the switch, for an out-of-range enum value, has no
counterpart in the three-constructor inductive). -/

inductive DbusPolicy
  | allow
  | filter
  | block
deriving DecidableEq, Repr

/-- Observable outcome of `dbus_check_bus_profile`: fall through (`ok`),
`exit(1)` on an Allow policy with a matching filter rule (`fatalExit`), or
the pair of `fwarning` calls naming the matching rule (`warning`). -/
inductive BusCheckResult
  | ok
  | fatalExit
  | warning (rule : List Char)
deriving DecidableEq, Repr

/-- `dbus_check_bus_profile` (dbus.c lines 81-112): walk the profile lines;
at the first line starting with `prefx`, Allow exits fatally, Filter does
nothing, Block warns naming that line; in every matching case the `break`
ends the scan. -/
def dbus_check_bus_profile (prefx : List Char) (policy : DbusPolicy) :
    List (List Char) → BusCheckResult
  | [] => .ok
  | data :: rest =>
    if prefx.isPrefixOf data then
      match policy with
      | .allow => .fatalExit
      | .filter => .ok
      | .block => .warning data
    else dbus_check_bus_profile prefx policy rest

/-- C8: `dbus_check_bus_profile` is determined by the first profile line
starting with the prefix: none matching is a no-op; a match aborts under
Allow, is a no-op under Filter, and under Block produces exactly one warning
naming that first matching rule — lines after the first match are never
examined. -/
theorem dbus_check_bus_profile_spec (prefx : List Char) (policy : DbusPolicy)
    (profile : List (List Char)) :
    dbus_check_bus_profile prefx policy profile =
      match profile.find? (fun data => prefx.isPrefixOf data) with
      | none => BusCheckResult.ok
      | some rule =>
        match policy with
        | .allow => BusCheckResult.fatalExit
        | .filter => BusCheckResult.ok
        | .block => BusCheckResult.warning rule := by
  induction profile with
  | nil => rfl
  | cons data rest ih =>
    by_cases hp : prefx.isPrefixOf data
    · cases policy <;> simp [dbus_check_bus_profile, List.find?_cons, hp]
    · simp only [List.find?_cons] at *
      simp [dbus_check_bus_profile, hp, ih]

/-- The inner scan of `write_profile` (dbus.c lines 144-148): advance
`arg_length` to the first space or the terminating NUL; produce the
name/value split only when a space was found. -/
def write_profile_arg : List Char → Option (List Char × List Char)
  | [] => none
  | c :: rest =>
    if c = ' ' then some ([], rest)
    else
      match write_profile_arg rest with
      | none => none
      | some (n, v) => some (c :: n, v)

/-- `write_profile` (dbus.c lines 135-151), with the `write_arg` side effect
reified as the returned list: for each profile line starting with `prefx`,
split the remainder at the first space and emit `--<name>=<value>`; lines
with no space after the prefix are skipped. -/
def write_profile (prefx : List Char) : List (List Char) → List (List Char)
  | [] => []
  | data :: rest =>
    if prefx.isPrefixOf data then
      match write_profile_arg (data.drop prefx.length) with
      | none => write_profile prefx rest
      | some nv => ("--".toList ++ nv.1 ++ '=' :: nv.2) :: write_profile prefx rest
    else write_profile prefx rest

/-- The spec's `collect_arguments(prefix)` (spec.md section 4.2): the code
reaches it as `write_profile` applied to the prefix with its trailing dot
(dbus.c lines 217 and 227). -/
def collect_arguments (prefx : List Char) (profile : List (List Char)) :
    List (List Char) :=
  write_profile (prefx ++ ['.']) profile

/-- "Not the space character" (the delimiter scan of spec.md section 4.2). -/
def notSpace (c : Char) : Bool := c ≠ ' '

/-- Spec-side description of one line's contribution (spec.md section 4.2):
a line starting with `prefix + "."` yields `--<name>=<value>` with `<name>`
the text between the prefix and the first space and `<value>` everything
after that space; no space means the line is skipped; other lines are
ignored. -/
def spec_collect_line (prefx line : List Char) : Option (List Char) :=
  if (prefx ++ ['.']).isPrefixOf line then
    match (line.drop (prefx.length + 1)).dropWhile notSpace with
    | [] => none
    | _ :: v =>
      some ("--".toList ++
        (line.drop (prefx.length + 1)).takeWhile notSpace ++ '=' :: v)
  else none

theorem write_profile_arg_eq (d : List Char) :
    write_profile_arg d =
      match d.dropWhile notSpace with
      | [] => none
      | _ :: v => some (d.takeWhile notSpace, v) := by
  induction d with
  | nil => rfl
  | cons c rest ih =>
    by_cases hc : c = ' '
    · subst hc
      have h1 : notSpace ' ' = false := by decide
      simp [write_profile_arg, List.dropWhile_cons, List.takeWhile_cons, h1]
    · have h1 : notSpace c = true := by simp [notSpace, hc]
      simp only [write_profile_arg, if_neg hc, List.dropWhile_cons,
        List.takeWhile_cons, h1, if_true, ih]
      cases hx : rest.dropWhile notSpace <;> simp [hx]

/-- C9: `collect_arguments` emits, in profile-line order, exactly one
`--<name>=<value>` per line starting with the prefix plus a dot and
containing a space after it (spaceless lines silently skipped, other lines
ignored), and on the lines `["dbus-user.talk org.foo", "dbus-user.own",
"other.rule x"]` it produces exactly `["--talk=org.foo"]`. -/
theorem collect_arguments_spec :
    (∀ prefx profile, collect_arguments prefx profile
        = profile.filterMap (spec_collect_line prefx))
    ∧ collect_arguments "dbus-user".toList
        ["dbus-user.talk org.foo".toList, "dbus-user.own".toList,
          "other.rule x".toList]
      = ["--talk=org.foo".toList] := by
  constructor
  · intro prefx profile
    induction profile with
    | nil => rfl
    | cons data rest ih =>
      unfold collect_arguments at ih ⊢
      by_cases hp : (prefx ++ ['.']).isPrefixOf data
      · have hlen : (prefx ++ ['.']).length = prefx.length + 1 := by simp
        simp only [write_profile, if_pos hp, List.filterMap_cons,
          spec_collect_line, if_pos hp, write_profile_arg_eq, hlen, ih]
        cases hx : (data.drop (prefx.length + 1)).dropWhile notSpace <;>
          simp [hx]
      · simp [write_profile, spec_collect_line, hp, ih]
  · decide

/-! ## ProxyProcess: `dbus_proxy_start` (dbus.c lines 173-252) and
`dbus_proxy_stop` (dbus.c lines 254-275).

The four file-scope globals (dbus.c lines 45-48) form the `ProxyState`
record.  `dbus_proxy_start` is modelled on its parent branch after a
successful `fork` (the child branch execs `xdg-dbus-proxy` and never
returns; `fork` failure aborts); the writes to the arguments pipe and the
closing of its write end are reified as an `ArgsEvent` trace. -/

/-- `RUN_FIREJAIL_DBUS_DIR` comes from `firejail.h`, which is outside this
slice; spec.md section 6 fixes only that it is "a fixed run-time location
parameterized by uid", so the concrete firejail value is used. -/
def RUN_FIREJAIL_DBUS_DIR : List Char := "/run/firejail/dbus".toList

/-- `DBUS_SOCKET_PATH_PREFIX` (dbus.c line 34). -/
def DBUS_SOCKET_PATH_PREFIX : List Char := "unix:path=".toList

/-- `DBUS_USER_SOCKET_FORMAT` instantiated at a uid (dbus.c line 35). -/
def DBUS_USER_SOCKET (uid : Nat) : List Char :=
  "/run/user/".toList ++ (Nat.repr uid).toList ++ "/bus".toList

/-- `DBUS_USER_SOCKET_PATH_FORMAT` instantiated at a uid (dbus.c line 36). -/
def DBUS_USER_SOCKET_PATH (uid : Nat) : List Char :=
  DBUS_SOCKET_PATH_PREFIX ++ DBUS_USER_SOCKET uid

/-- `DBUS_SYSTEM_SOCKET` (dbus.c line 37). -/
def DBUS_SYSTEM_SOCKET : List Char := "/run/dbus/system_bus_socket".toList

/-- `DBUS_SYSTEM_SOCKET_PATH` (dbus.c line 38). -/
def DBUS_SYSTEM_SOCKET_PATH : List Char :=
  DBUS_SOCKET_PATH_PREFIX ++ DBUS_SYSTEM_SOCKET

/-- `DBUS_USER_DIR_FORMAT` instantiated at a uid (dbus.c line 40). -/
def DBUS_USER_DIR (uid : Nat) : List Char :=
  RUN_FIREJAIL_DBUS_DIR ++ '/' :: (Nat.repr uid).toList

/-- `DBUS_USER_PROXY_SOCKET_FORMAT` instantiated (dbus.c line 41). -/
def DBUS_USER_PROXY_SOCKET (uid pid : Nat) : List Char :=
  DBUS_USER_DIR uid ++ '/' :: (Nat.repr pid).toList ++ "-user".toList

/-- `DBUS_SYSTEM_PROXY_SOCKET_FORMAT` instantiated (dbus.c line 42). -/
def DBUS_SYSTEM_PROXY_SOCKET (uid pid : Nat) : List Char :=
  DBUS_USER_DIR uid ++ '/' :: (Nat.repr pid).toList ++ "-system".toList

/-- The four file-scope globals of dbus.c lines 45-48.  A C pointer that is
`NULL` is `none`; `free` without nulling does not change the pointer, so it
leaves the field untouched.  The status descriptor is an `Int` with the
C sentinel `-1` for "invalid". -/
structure ProxyState where
  dbus_proxy_pid : Nat
  dbus_proxy_status_fd : Int
  dbus_user_proxy_socket : Option (List Char)
  dbus_system_proxy_socket : Option (List Char)
deriving DecidableEq, Repr

/-- The initializers of dbus.c lines 45-48. -/
def initState : ProxyState := ⟨0, -1, none, none⟩

/-- The ambient inputs of the subsystem, fixed for one sandbox instance:
the two policies (set once before orchestration, immutable thereafter), the
`DBUS_SESSION_BUS_ADDRESS` environment value, uid, the orchestrating
process's own pid (`getpid()`), the profile lines, and the
`checkcfg(CFG_DBUS)` switch. -/
structure DbusConfig where
  arg_dbus_user : DbusPolicy
  arg_dbus_system : DbusPolicy
  dbus_session_bus_address : Option (List Char)
  uid : Nat
  self_pid : Nat
  profile : List (List Char)
  cfg_dbus : Bool
deriving DecidableEq, Repr

/-- Observable actions of the parent on the arguments pipe: one `write_arg`
call (the NUL-terminated string written), or closing the write end. -/
inductive ArgsEvent
  | write (arg : List Char)
  | closeArgs
deriving DecidableEq, Repr

/-- `write_arg` (dbus.c lines 119-133) runs `vasprintf(&arg, format, ap)`.
Several call sites (dbus.c lines 210, 215, 216, 221, 225, 226) pass the
value to be written in the format-string position with NO variadic
arguments; this models that interpretation: `%%` collapses to a single
`%`, and any other `%` sequence reads a missing argument — undefined
behavior, `none`. -/
def vasprintf_loop : List Char → Bool → Option (List Char)
  | [], false => some []
  | [], true => none
  | c :: rest, false =>
    if c = '%' then vasprintf_loop rest true
    else (vasprintf_loop rest false).map (fun s => c :: s)
  | c :: rest, true =>
    if c = '%' then (vasprintf_loop rest false).map (fun s => '%' :: s)
    else none

/-- See `vasprintf_loop`: scan the format; outside a pending `%` an ordinary
character is copied and a `%` becomes pending; a pending `%` followed by
`%` emits one `%`; a pending `%` followed by anything else (or by the end
of the string) is a conversion with no argument — undefined. -/
def vasprintf_no_args (l : List Char) : Option (List Char) :=
  vasprintf_loop l false

theorem vasprintf_no_args_of_percent_free (l : List Char)
    (h : ∀ c ∈ l, c ≠ '%') : vasprintf_no_args l = some l := by
  unfold vasprintf_no_args
  induction l with
  | nil => rfl
  | cons c rest ih =>
    have hc : c ≠ '%' := h c (by simp)
    have hr : ∀ x ∈ rest, x ≠ '%' := fun x hx => h x (by simp [hx])
    simp [vasprintf_loop, hc, ih hr]

theorem digitChar_ne_percent (n : Nat) : Nat.digitChar n ≠ '%' := by
  by_cases h : n < 16
  · have hall : ∀ m : Fin 16, Nat.digitChar m.val ≠ '%' := by decide
    exact hall ⟨n, h⟩
  · have h0 : ¬ (n = 0) := by omega
    have h1 : ¬ (n = 1) := by omega
    have h2 : ¬ (n = 2) := by omega
    have h3 : ¬ (n = 3) := by omega
    have h4 : ¬ (n = 4) := by omega
    have h5 : ¬ (n = 5) := by omega
    have h6 : ¬ (n = 6) := by omega
    have h7 : ¬ (n = 7) := by omega
    have h8 : ¬ (n = 8) := by omega
    have h9 : ¬ (n = 9) := by omega
    have h10 : ¬ (n = 10) := by omega
    have h11 : ¬ (n = 11) := by omega
    have h12 : ¬ (n = 12) := by omega
    have h13 : ¬ (n = 13) := by omega
    have h14 : ¬ (n = 14) := by omega
    have h15 : ¬ (n = 15) := by omega
    simp [Nat.digitChar, h0, h1, h2, h3, h4, h5, h6, h7, h8, h9, h10, h11,
      h12, h13, h14, h15]

theorem toDigitsCore_ne_percent (fuel : Nat) : ∀ (n : Nat) (ds : List Char),
    (∀ c ∈ ds, c ≠ '%') → ∀ c ∈ Nat.toDigitsCore 10 fuel n ds, c ≠ '%' := by
  induction fuel with
  | zero =>
    intro n ds h c hc
    exact h c hc
  | succ fuel ih =>
    intro n ds h c hc
    have hcons : ∀ x ∈ Nat.digitChar (n % 10) :: ds, x ≠ '%' := by
      intro x hx
      rcases List.mem_cons.mp hx with rfl | hm
      · exact digitChar_ne_percent _
      · exact h x hm
    unfold Nat.toDigitsCore at hc
    by_cases hq : n / 10 = 0
    · rw [if_pos hq] at hc
      exact hcons c hc
    · rw [if_neg hq] at hc
      exact ih (n / 10) (Nat.digitChar (n % 10) :: ds) hcons c hc

/-- The decimal rendering of a natural number contains no `%`, so passing a
uid/pid-derived path through `vasprintf` with no arguments is the
identity. -/
theorem repr_toList_ne_percent (n : Nat) :
    ∀ c ∈ (Nat.repr n).toList, c ≠ '%' := by
  have hrw : (Nat.repr n).toList = Nat.toDigitsCore 10 (n + 1) n [] := rfl
  rw [hrw]
  exact toDigitsCore_ne_percent (n + 1) n [] (by simp)

theorem vasprintf_user_proxy_sock (uid pid : Nat) :
    vasprintf_no_args (DBUS_USER_PROXY_SOCKET uid pid)
      = some (DBUS_USER_PROXY_SOCKET uid pid) := by
  apply vasprintf_no_args_of_percent_free
  intro c hc hceq
  subst hceq
  have h1 : ¬ ('%' ∈ "/run/firejail/dbus".toList) := by decide
  have h2 : ¬ ('%' ∈ "-user".toList) := by decide
  have h3 : ¬ ('%' ∈ (Nat.repr uid).toList) := fun hm =>
    repr_toList_ne_percent uid '%' hm rfl
  have h4 : ¬ ('%' ∈ (Nat.repr pid).toList) := fun hm =>
    repr_toList_ne_percent pid '%' hm rfl
  have h5 : ¬ ('%' = '/') := by decide
  unfold DBUS_USER_PROXY_SOCKET DBUS_USER_DIR RUN_FIREJAIL_DBUS_DIR at hc
  simp only [List.mem_append, List.mem_cons] at hc
  tauto

theorem vasprintf_system_proxy_sock (uid pid : Nat) :
    vasprintf_no_args (DBUS_SYSTEM_PROXY_SOCKET uid pid)
      = some (DBUS_SYSTEM_PROXY_SOCKET uid pid) := by
  apply vasprintf_no_args_of_percent_free
  intro c hc hceq
  subst hceq
  have h1 : ¬ ('%' ∈ "/run/firejail/dbus".toList) := by decide
  have h2 : ¬ ('%' ∈ "-system".toList) := by decide
  have h3 : ¬ ('%' ∈ (Nat.repr uid).toList) := fun hm =>
    repr_toList_ne_percent uid '%' hm rfl
  have h4 : ¬ ('%' ∈ (Nat.repr pid).toList) := fun hm =>
    repr_toList_ne_percent pid '%' hm rfl
  have h5 : ¬ ('%' = '/') := by decide
  unfold DBUS_SYSTEM_PROXY_SOCKET DBUS_USER_DIR RUN_FIREJAIL_DBUS_DIR at hc
  simp only [List.mem_append, List.mem_cons] at hc
  tauto

theorem vasprintf_filter_literal :
    vasprintf_no_args ['-', '-', 'f', 'i', 'l', 't', 'e', 'r']
      = some ['-', '-', 'f', 'i', 'l', 't', 'e', 'r'] := by
  decide

theorem vasprintf_system_socket_path :
    vasprintf_no_args DBUS_SYSTEM_SOCKET_PATH = some DBUS_SYSTEM_SOCKET_PATH := by
  decide

/-- The parent branch of `dbus_proxy_start` (dbus.c lines 173-231) after a
successful fork returning child pid `cpid`, with `fd` the read end of the
status pipe: record pid and status fd, then for each Filter bus write the
real bus address, the freshly built proxy socket path (also stored in the
handle), the literal `--filter`, and the `write_profile` directives;
finally close the arguments-pipe write end.  The writes at dbus.c lines
208 and those inside `write_profile` supply proper arguments to their
format strings, so their results appear directly; the bare-format calls
(the environment value at line 210, the socket paths at lines 215/225 and
the literals at lines 216/221/226) go through `vasprintf_no_args`, so a
`%%` in the session-bus address collapses and any other `%` conversion in
it makes the write undefined.  Returns the new global state and the
arguments-pipe event trace, `none` when some write had undefined
behavior. -/
def dbus_proxy_start_parent (cfg : DbusConfig) (cpid fd : Nat)
    (st : ProxyState) : ProxyState × Option (List ArgsEvent) :=
  let st1 : ProxyState :=
    { st with dbus_proxy_status_fd := (fd : Int), dbus_proxy_pid := cpid }
  let userSock : List Char := DBUS_USER_PROXY_SOCKET cfg.uid cfg.self_pid
  let sysSock : List Char := DBUS_SYSTEM_PROXY_SOCKET cfg.uid cfg.self_pid
  let userState : ProxyState :=
    if cfg.arg_dbus_user = DbusPolicy.filter then
      { st1 with dbus_user_proxy_socket := some userSock }
    else st1
  let userArgs : Option (List (List Char)) :=
    if cfg.arg_dbus_user = DbusPolicy.filter then
      (match cfg.dbus_session_bus_address with
        | none => some (DBUS_USER_SOCKET_PATH cfg.uid)
        | some e => vasprintf_no_args e).bind fun addr =>
        (vasprintf_no_args userSock).bind fun sockArg =>
          (vasprintf_no_args "--filter".toList).map fun filterArg =>
            addr :: sockArg :: filterArg ::
              write_profile "dbus-user.".toList cfg.profile
    else some []
  let sysState : ProxyState :=
    if cfg.arg_dbus_system = DbusPolicy.filter then
      { userState with dbus_system_proxy_socket := some sysSock }
    else userState
  let sysArgs : Option (List (List Char)) :=
    if cfg.arg_dbus_system = DbusPolicy.filter then
      (vasprintf_no_args DBUS_SYSTEM_SOCKET_PATH).bind fun addr =>
        (vasprintf_no_args sysSock).bind fun sockArg =>
          (vasprintf_no_args "--filter".toList).map fun filterArg =>
            addr :: sockArg :: filterArg ::
              write_profile "dbus-system.".toList cfg.profile
    else some []
  (sysState,
    userArgs.bind fun u => sysArgs.map fun s =>
      (u ++ s).map ArgsEvent.write ++ [ArgsEvent.closeArgs])

/-- The spec's per-bus configuration block (spec.md sections 4.3 and 6):
real bus address, proxy socket path, the literal `--filter`, then the
ordered filter directives for that bus's prefix. -/
def spec_bus_args (realAddr proxySock : List Char) (prefx : List Char)
    (profile : List (List Char)) : List (List Char) :=
  realAddr :: proxySock :: "--filter".toList :: collect_arguments prefx profile

/-- The real user-bus address as claim C4 words it: the environment value
only when it is present AND well-formed (starts with `unix:path=`, the
check dbus.c makes only in `dbus_apply_policy`, lines 323-328), else the
canonical per-uid default. -/
def claimed_real_user_address (cfg : DbusConfig) : List Char :=
  match cfg.dbus_session_bus_address with
  | none => DBUS_USER_SOCKET_PATH cfg.uid
  | some e =>
    if DBUS_SOCKET_PATH_PREFIX.isPrefixOf e then e
    else DBUS_USER_SOCKET_PATH cfg.uid

/-- The arguments-pipe stream as spec.md section 4.3 step 4 describes it,
parameterized by the choice of real user-bus address. -/
def spec_args_stream_with (realUser : List Char) (cfg : DbusConfig) :
    List ArgsEvent :=
  (((if cfg.arg_dbus_user = DbusPolicy.filter then
        spec_bus_args realUser
          (DBUS_USER_PROXY_SOCKET cfg.uid cfg.self_pid)
          "dbus-user".toList cfg.profile
      else []) ++
    (if cfg.arg_dbus_system = DbusPolicy.filter then
        spec_bus_args DBUS_SYSTEM_SOCKET_PATH
          (DBUS_SYSTEM_PROXY_SOCKET cfg.uid cfg.self_pid)
          "dbus-system".toList cfg.profile
      else [])).map ArgsEvent.write) ++ [ArgsEvent.closeArgs]

/-- C4 counterexample configuration: user policy Filter, session-bus address
present but not of the `unix:path=` form. -/
def c4cfg : DbusConfig :=
  ⟨DbusPolicy.filter, DbusPolicy.block, some "tcp:host=x,port=1".toList,
    7, 9, [], true⟩

/-- C4 counterexample: with a present but non-`unix:path=` (and `%`-free)
session-bus address the parent writes the environment value as the first
argument, not the canonical per-uid path the claim requires. -/
theorem dbus_proxy_start_args_counterexample :
    (dbus_proxy_start_parent c4cfg 5 3 initState).2
        ≠ some (spec_args_stream_with (claimed_real_user_address c4cfg) c4cfg)
    ∧ (dbus_proxy_start_parent c4cfg 5 3 initState).2
        = some (spec_args_stream_with "tcp:host=x,port=1".toList c4cfg) := by
  constructor
  · decide
  · decide

/-- C4 amended: whenever the user-bus address write has defined behavior
producing `realAddr` — the session-bus environment value put through the
no-argument printf interpretation (`%%` collapsed to `%`; any other `%`
conversion is undefined) whenever the variable is present, well-formed or
not, else the canonical `unix:path=/run/user/<uid>/bus` — the parent's
arguments-pipe trace is exactly: for the user bus then the system bus, each
only under Filter policy, the real bus address (`realAddr` for the user
bus; the fixed `unix:path=/run/dbus/system_bus_socket` for the system bus),
the freshly allocated proxy socket path, the literal `--filter`, and one
`--<name>=<value>` per matching profile directive in profile-line order;
then the single close of the arguments-pipe write end, and nothing else. -/
theorem dbus_proxy_start_args_spec (cfg : DbusConfig) (cpid fd : Nat)
    (st : ProxyState) (realAddr : List Char)
    (h : (match cfg.dbus_session_bus_address with
          | none => some (DBUS_USER_SOCKET_PATH cfg.uid)
          | some e => vasprintf_no_args e) = some realAddr) :
    (dbus_proxy_start_parent cfg cpid fd st).2
      = some (spec_args_stream_with realAddr cfg) := by
  unfold dbus_proxy_start_parent spec_args_stream_with spec_bus_args
    collect_arguments
  cases hu : cfg.arg_dbus_user <;> cases hs : cfg.arg_dbus_system <;>
    simp [hu, hs, h, vasprintf_user_proxy_sock, vasprintf_system_proxy_sock,
      vasprintf_filter_literal, vasprintf_system_socket_path]

/-- Witness configuration for the amended C4: the session-bus address
contains a `%%`, which the write collapses to `%`. -/
def c4bcfg : DbusConfig :=
  ⟨DbusPolicy.filter, DbusPolicy.allow, some "unix:path=/tmp/a%%b".toList,
    7, 9, [], true⟩

theorem dbus_proxy_start_args_spec_witness :
    ((match c4bcfg.dbus_session_bus_address with
        | none => some (DBUS_USER_SOCKET_PATH c4bcfg.uid)
        | some e => vasprintf_no_args e) = some "unix:path=/tmp/a%b".toList)
    ∧ (dbus_proxy_start_parent c4bcfg 5 3 initState).2
        = some (spec_args_stream_with "unix:path=/tmp/a%b".toList c4bcfg) :=
  ⟨by decide, dbus_proxy_start_args_spec c4bcfg 5 3 initState
    "unix:path=/tmp/a%b".toList (by decide)⟩

/-! ## Status-pipe readiness wait (dbus.c lines 230-251, claim C5) -/

/-- Observable actions of the parent after closing the arguments-pipe write
end: `errExit("read")`, `waitpid` on the child, `exit(code)`, fall through
to successful startup, or the (unreachable) `assert(0)`. -/
inductive StatusReadAction
  | errExitRead
  | waitpidChild
  | exitProcess (code : Int)
  | proceed
  | assertFail
deriving DecidableEq, Repr

/-- The `switch (read_bytes)` of dbus.c lines 232-250 on the result of the
single blocking `read(status_pipe[0], buf, 1)`: `-1` aborts via `errExit`,
`0` (EOF) waits for the child and then exits with `-1`, `1` proceeds, and
any other value would hit `assert(0)`. -/
def dbus_proxy_start_status (read_bytes : Int) : List StatusReadAction :=
  if read_bytes = -1 then [StatusReadAction.errExitRead]
  else if read_bytes = 0 then
    [StatusReadAction.waitpidChild, StatusReadAction.exitProcess (-1)]
  else if read_bytes = 1 then [StatusReadAction.proceed]
  else [StatusReadAction.assertFail]

/-- C5: under the POSIX totality of a one-byte read (result -1, 0 or 1) the
outcome is exhaustive: one byte proceeds; EOF first waits for the child and
then exits with non-zero status; a read error aborts immediately; the
`assert(0)` default is unreachable. -/
theorem dbus_proxy_start_status_total (r : Int) (h : r = -1 ∨ r = 0 ∨ r = 1) :
    (r = 1 → dbus_proxy_start_status r = [StatusReadAction.proceed])
    ∧ (r = 0 → dbus_proxy_start_status r
        = [StatusReadAction.waitpidChild, StatusReadAction.exitProcess (-1)]
        ∧ (-1 : Int) ≠ 0)
    ∧ (r = -1 → dbus_proxy_start_status r = [StatusReadAction.errExitRead])
    ∧ dbus_proxy_start_status r ≠ [StatusReadAction.assertFail] := by
  rcases h with h | h | h <;> subst h <;> decide

theorem dbus_proxy_start_status_total_witness :
    ((1 : Int) = -1 ∨ (1 : Int) = 0 ∨ (1 : Int) = 1)
    ∧ (((1 : Int) = 1 →
          dbus_proxy_start_status 1 = [StatusReadAction.proceed])
      ∧ ((1 : Int) = 0 → dbus_proxy_start_status 1
          = [StatusReadAction.waitpidChild, StatusReadAction.exitProcess (-1)]
          ∧ (-1 : Int) ≠ 0)
      ∧ ((1 : Int) = -1 →
          dbus_proxy_start_status 1 = [StatusReadAction.errExitRead])
      ∧ dbus_proxy_start_status 1 ≠ [StatusReadAction.assertFail]) :=
  ⟨by decide, dbus_proxy_start_status_total 1 (by decide)⟩

/-! ## Lifecycle: `dbus_proxy_stop`, `dbus_apply_policy` handle effects, and
the operation sequences of claim C1 -/

/-- `dbus_proxy_stop` (dbus.c lines 254-275): no-op when no proxy runs;
otherwise (after `assert(dbus_proxy_status_fd >= 0)`) close the descriptor,
reap the child, zero the pid, invalidate the descriptor and free-and-null
both socket path pointers.  `none` is the failed assertion. -/
def dbus_proxy_stop (st : ProxyState) : Option ProxyState :=
  if st.dbus_proxy_pid = 0 then some st
  else if st.dbus_proxy_status_fd < 0 then none
  else some ⟨0, -1, none, none⟩

/-- The effect of `dbus_apply_policy` (dbus.c lines 303-369) on the four
globals: the early returns (both-Allow, or D-Bus handling disabled) change
nothing; otherwise each Filter bus asserts its stored proxy socket path is
non-NULL (dbus.c lines 333 and 361; `none` is the failed assertion) and the
`free` calls (lines 335 and 363) do not null the pointers, so the record is
unchanged.  Mounts, path hiding and the environment rewrite have no
counterpart in the handle. -/
def dbus_apply_policy_state (cfg : DbusConfig) (st : ProxyState) :
    Option ProxyState :=
  if cfg.arg_dbus_user = DbusPolicy.allow
      ∧ cfg.arg_dbus_system = DbusPolicy.allow then some st
  else if cfg.cfg_dbus = false then some st
  else if cfg.arg_dbus_user = DbusPolicy.filter
      ∧ st.dbus_user_proxy_socket = none then none
  else if cfg.arg_dbus_system = DbusPolicy.filter
      ∧ st.dbus_system_proxy_socket = none then none
  else some st

/-- One operation of the claim C1 sequences.  For `start`, `cpid` is the
fork result seen by the parent (0 would mean this process is the child,
which execs and never returns to this code) and `ready` tells whether the
status-pipe read returned one byte (on EOF or error the parent exits, so
the sequence has no continuation). -/
inductive DbusOp
  | start (cpid fd : Nat) (ready : Bool)
  | applyPolicy
  | stop
deriving DecidableEq, Repr

def dbus_step (cfg : DbusConfig) (op : DbusOp) (st : ProxyState) :
    Option ProxyState :=
  match op with
  | .start cpid fd ready =>
    if cpid = 0 then none
    else if ready then some (dbus_proxy_start_parent cfg cpid fd st).1
    else none
  | .applyPolicy => dbus_apply_policy_state cfg st
  | .stop => dbus_proxy_stop st

def dbus_run (cfg : DbusConfig) : List DbusOp → ProxyState → Option ProxyState
  | [], st => some st
  | op :: ops, st =>
    match dbus_step cfg op st with
    | none => none
    | some st1 => dbus_run cfg ops st1

/-- Inductive invariant of the handle over the operation sequences. -/
def HandleInv (cfg : DbusConfig) (st : ProxyState) : Prop :=
  (st.dbus_proxy_pid = 0 →
    st.dbus_user_proxy_socket = none ∧ st.dbus_system_proxy_socket = none
      ∧ st.dbus_proxy_status_fd = -1)
  ∧ (st.dbus_proxy_pid ≠ 0 → 0 ≤ st.dbus_proxy_status_fd)
  ∧ (cfg.arg_dbus_user ≠ DbusPolicy.filter → st.dbus_user_proxy_socket = none)
  ∧ (cfg.arg_dbus_system ≠ DbusPolicy.filter →
      st.dbus_system_proxy_socket = none)

theorem dbus_proxy_start_parent_state (cfg : DbusConfig) (cpid fd : Nat)
    (st : ProxyState) :
    (dbus_proxy_start_parent cfg cpid fd st).1 =
      { dbus_proxy_pid := cpid
        dbus_proxy_status_fd := (fd : Int)
        dbus_user_proxy_socket :=
          if cfg.arg_dbus_user = DbusPolicy.filter then
            some (DBUS_USER_PROXY_SOCKET cfg.uid cfg.self_pid)
          else st.dbus_user_proxy_socket
        dbus_system_proxy_socket :=
          if cfg.arg_dbus_system = DbusPolicy.filter then
            some (DBUS_SYSTEM_PROXY_SOCKET cfg.uid cfg.self_pid)
          else st.dbus_system_proxy_socket } := by
  unfold dbus_proxy_start_parent
  by_cases hu : cfg.arg_dbus_user = DbusPolicy.filter <;>
    by_cases hs : cfg.arg_dbus_system = DbusPolicy.filter <;>
      simp [hu, hs]

theorem dbus_apply_policy_state_eq (cfg : DbusConfig) (st st' : ProxyState)
    (h : dbus_apply_policy_state cfg st = some st') : st' = st := by
  unfold dbus_apply_policy_state at h
  split_ifs at h <;> exact (Option.some_inj.mp h).symm

theorem dbus_step_preserves (cfg : DbusConfig) (op : DbusOp)
    (st st' : ProxyState) (hinv : HandleInv cfg st)
    (hstep : dbus_step cfg op st = some st') : HandleInv cfg st' := by
  obtain ⟨h1, h2, h3, h4⟩ := hinv
  cases op with
  | start cpid fd ready =>
    by_cases hc : cpid = 0
    · simp [dbus_step, hc] at hstep
    · cases hr : ready with
      | false => simp [dbus_step, hc, hr] at hstep
      | true =>
        simp only [dbus_step, if_neg hc, hr, if_true] at hstep
        rw [dbus_proxy_start_parent_state] at hstep
        obtain rfl := Option.some_inj.mp hstep
        refine ⟨fun hpid => absurd hpid hc, fun _ => by positivity, ?_, ?_⟩
        · intro hu
          simp only [if_neg (by intro hx; exact hu hx)]
          exact h3 hu
        · intro hs
          simp only [if_neg (by intro hx; exact hs hx)]
          exact h4 hs
  | applyPolicy =>
    obtain rfl := dbus_apply_policy_state_eq cfg st st' hstep
    exact ⟨h1, h2, h3, h4⟩
  | stop =>
    unfold dbus_step dbus_proxy_stop at hstep
    by_cases hpid : st.dbus_proxy_pid = 0
    · rw [if_pos hpid] at hstep
      obtain rfl := Option.some_inj.mp hstep.symm
      exact ⟨h1, h2, h3, h4⟩
    · rw [if_neg hpid] at hstep
      by_cases hfd : st.dbus_proxy_status_fd < 0
      · rw [if_pos hfd] at hstep; cases hstep
      · rw [if_neg hfd] at hstep
        obtain rfl := Option.some_inj.mp hstep.symm
        exact ⟨fun _ => ⟨rfl, rfl, rfl⟩, fun h => absurd rfl h,
          fun _ => rfl, fun _ => rfl⟩

theorem initState_inv (cfg : DbusConfig) : HandleInv cfg initState :=
  ⟨fun _ => ⟨rfl, rfl, rfl⟩, fun h => absurd rfl h, fun _ => rfl, fun _ => rfl⟩

theorem dbus_run_preserves (cfg : DbusConfig) (ops : List DbusOp) :
    ∀ s st : ProxyState, HandleInv cfg s → dbus_run cfg ops s = some st →
      HandleInv cfg st := by
  induction ops with
  | nil =>
    intro s st hinv h
    obtain rfl := Option.some_inj.mp h
    exact hinv
  | cons op ops ih =>
    intro s st hinv h
    unfold dbus_run at h
    cases hstep : dbus_step cfg op s with
    | none => rw [hstep] at h; cases h
    | some s1 =>
      rw [hstep] at h
      exact ih s1 st (dbus_step_preserves cfg op s s1 hinv hstep) h

/-- C1: along every operation sequence from the initial state, a reachable
handle state satisfies `pid = 0` iff both socket paths are unset and the
status descriptor is invalid; immediately after any further successful
start the user (resp. system) proxy socket path is set iff that bus's
policy is Filter and the pid is non-zero; and after a stop from a reachable
state the pid is 0, the descriptor is `-1` and both socket paths are
cleared. -/
theorem proxy_handle_lifecycle (cfg : DbusConfig) (ops : List DbusOp)
    (st : ProxyState) (h : dbus_run cfg ops initState = some st) :
    (st.dbus_proxy_pid = 0 ↔
      st.dbus_user_proxy_socket = none ∧ st.dbus_system_proxy_socket = none
        ∧ st.dbus_proxy_status_fd = -1)
    ∧ (∀ cpid fd ready st1,
        dbus_step cfg (DbusOp.start cpid fd ready) st = some st1 →
          ((st1.dbus_user_proxy_socket ≠ none ↔
              cfg.arg_dbus_user = DbusPolicy.filter ∧ st1.dbus_proxy_pid ≠ 0)
          ∧ (st1.dbus_system_proxy_socket ≠ none ↔
              cfg.arg_dbus_system = DbusPolicy.filter
                ∧ st1.dbus_proxy_pid ≠ 0)))
    ∧ (∀ st2, dbus_step cfg DbusOp.stop st = some st2 →
        st2.dbus_proxy_pid = 0 ∧ st2.dbus_proxy_status_fd = -1
          ∧ st2.dbus_user_proxy_socket = none
          ∧ st2.dbus_system_proxy_socket = none) := by
  have hinv := dbus_run_preserves cfg ops initState st (initState_inv cfg) h
  obtain ⟨h1, h2, h3, h4⟩ := hinv
  refine ⟨?_, ?_, ?_⟩
  · constructor
    · exact h1
    · rintro ⟨hu, hs, hfd⟩
      by_contra hpid
      have := h2 hpid
      omega
  · intro cpid fd ready st1 hstep
    have hinv1 : HandleInv cfg st1 :=
      dbus_step_preserves cfg (DbusOp.start cpid fd ready) st st1
        ⟨h1, h2, h3, h4⟩ hstep
    by_cases hc : cpid = 0
    · simp [dbus_step, hc] at hstep
    · cases hr : ready with
      | false => simp [dbus_step, hc, hr] at hstep
      | true =>
        simp only [dbus_step, if_neg hc, hr, if_true] at hstep
        rw [dbus_proxy_start_parent_state] at hstep
        obtain rfl := Option.some_inj.mp hstep
        constructor
        · by_cases hu : cfg.arg_dbus_user = DbusPolicy.filter
          · simp [hu, hc]
          · simp [hu, hc, h3 hu]
        · by_cases hs : cfg.arg_dbus_system = DbusPolicy.filter
          · simp [hs, hc]
          · simp [hs, hc, h4 hs]
  · intro st2 hstep
    unfold dbus_step dbus_proxy_stop at hstep
    by_cases hpid : st.dbus_proxy_pid = 0
    · rw [if_pos hpid] at hstep
      obtain rfl := Option.some_inj.mp hstep.symm
      obtain ⟨hu, hs, hfd⟩ := h1 hpid
      exact ⟨hpid, hfd, hu, hs⟩
    · rw [if_neg hpid] at hstep
      rw [if_neg (by have := h2 hpid; omega)] at hstep
      obtain rfl := Option.some_inj.mp hstep.symm
      exact ⟨rfl, rfl, rfl, rfl⟩

/-- Configuration for the C1 witness: user bus filtered, system bus
blocked. -/
def c1cfg : DbusConfig :=
  ⟨DbusPolicy.filter, DbusPolicy.block, none, 1, 2, [], true⟩

/-- The state after one successful start under `c1cfg`. -/
def c1st : ProxyState := ⟨5, 3, some (DBUS_USER_PROXY_SOCKET 1 2), none⟩

theorem proxy_handle_lifecycle_witness :
    dbus_run c1cfg [DbusOp.start 5 3 true] initState = some c1st
    ∧ ((c1st.dbus_proxy_pid = 0 ↔
        c1st.dbus_user_proxy_socket = none
          ∧ c1st.dbus_system_proxy_socket = none
          ∧ c1st.dbus_proxy_status_fd = -1)
      ∧ (∀ cpid fd ready st1,
          dbus_step c1cfg (DbusOp.start cpid fd ready) c1st = some st1 →
            ((st1.dbus_user_proxy_socket ≠ none ↔
                c1cfg.arg_dbus_user = DbusPolicy.filter
                  ∧ st1.dbus_proxy_pid ≠ 0)
            ∧ (st1.dbus_system_proxy_socket ≠ none ↔
                c1cfg.arg_dbus_system = DbusPolicy.filter
                  ∧ st1.dbus_proxy_pid ≠ 0)))
      ∧ (∀ st2, dbus_step c1cfg DbusOp.stop c1st = some st2 →
          st2.dbus_proxy_pid = 0 ∧ st2.dbus_proxy_status_fd = -1
            ∧ st2.dbus_user_proxy_socket = none
            ∧ st2.dbus_system_proxy_socket = none)) :=
  ⟨by decide, proxy_handle_lifecycle c1cfg [DbusOp.start 5 3 true] c1st
    (by decide)⟩

/-! ## SocketOverlay: `socket_overlay` (dbus.c lines 277-295, claims C6, C7)

The filesystem is modelled at the two instants the function touches it: the
object `proxy_path` resolves to when `safe_fd` opens it (pinned by the
returned descriptor), and the object it resolves to when `mount(2)` runs.
Objects carry an identity so that "the same filesystem object" is
expressible. -/

inductive FileKind
  | sock
  | regular
  | directory
  | symlink
  | fifo
  | other
deriving DecidableEq, Repr

/-- A filesystem object: an identity (think inode) and its `st_mode` kind. -/
structure FsObject where
  ident : Nat
  kind : FileKind
deriving DecidableEq, Repr

/-- The inputs of one `socket_overlay` call: what `safe_fd` pins at open
time (`none` when the open fails and returns -1), whether `fstat` on the
opened descriptor succeeds, what `proxy_path` resolves to at `mount(2)`
time, and whether the mount call itself succeeds. -/
structure OverlayWorld where
  objAtOpen : Option FsObject
  fstatOk : Bool
  objAtMount : FsObject
  mountOk : Bool
deriving DecidableEq, Repr

/-- Observable actions of `socket_overlay`, in order: the `safe_fd` open, a
fatal `errExit`, the `fstat`, building the (unused) `/proc/self/fd/<fd>`
string, the `mount(MS_BIND | MS_REC)` attempt with the object its source
path resolves to at that instant, and the final `close`. -/
inductive OverlayAction
  | openProxy
  | errExitAction (msg : List Char)
  | fstatAction
  | buildFdPath
  | mountBindAction (source : FsObject)
  | closeAction
deriving DecidableEq, Repr

/-- `socket_overlay` (dbus.c lines 277-295): open `proxy_path` with
`O_PATH | O_NOFOLLOW | O_CLOEXEC` (abort on failure), `fstat` the opened
descriptor (abort on failure), abort with `ENOTSOCK` unless the pinned
object is a socket, build `/proc/self/fd/<fd>` (never used afterwards),
then call `mount` with the raw `proxy_path` as source — so the mounted
source is whatever the path resolves to at mount time — and finally free
the string and close the descriptor. -/
def socket_overlay (w : OverlayWorld) : List OverlayAction :=
  match w.objAtOpen with
  | none =>
    [OverlayAction.openProxy,
      OverlayAction.errExitAction "opening DBus proxy socket".toList]
  | some obj =>
    if w.fstatOk = false then
      [OverlayAction.openProxy, OverlayAction.fstatAction,
        OverlayAction.errExitAction "fstat".toList]
    else if obj.kind ≠ FileKind.sock then
      [OverlayAction.openProxy, OverlayAction.fstatAction,
        OverlayAction.errExitAction "mounting DBus proxy socket".toList]
    else
      [OverlayAction.openProxy, OverlayAction.fstatAction,
        OverlayAction.buildFdPath,
        OverlayAction.mountBindAction w.objAtMount] ++
      (if w.mountOk then [OverlayAction.closeAction]
        else [OverlayAction.errExitAction "mount bind".toList])

/-- C6: when the object reached at `proxy_path` at open time is not a
socket, `socket_overlay` fails fatally and never attempts the bind mount;
and conversely a mount attempt can only occur after a successful `fstat`
reporting a socket. -/
theorem socket_overlay_guard (w : OverlayWorld) :
    (∀ obj, w.objAtOpen = some obj → obj.kind ≠ FileKind.sock →
      (∃ m, OverlayAction.errExitAction m ∈ socket_overlay w)
      ∧ ∀ src, OverlayAction.mountBindAction src ∉ socket_overlay w)
    ∧ (∀ src, OverlayAction.mountBindAction src ∈ socket_overlay w →
        w.fstatOk = true
        ∧ ∃ obj, w.objAtOpen = some obj ∧ obj.kind = FileKind.sock) := by
  obtain ⟨o, hf, m, hm⟩ := w
  constructor
  · rintro obj rfl hk
    cases hf with
    | false =>
      refine ⟨⟨"fstat".toList, ?_⟩, ?_⟩
      · simp [socket_overlay]
      · intro src
        simp [socket_overlay]
    | true =>
      refine ⟨⟨"mounting DBus proxy socket".toList, ?_⟩, ?_⟩
      · simp [socket_overlay, hk]
      · intro src
        simp [socket_overlay, hk]
  · intro src hmem
    cases o with
    | none => simp [socket_overlay] at hmem
    | some obj =>
      cases hf with
      | false => simp [socket_overlay] at hmem
      | true =>
        by_cases hk : obj.kind = FileKind.sock
        · exact ⟨rfl, obj, rfl, hk⟩
        · simp [socket_overlay, hk] at hmem

/-- The overlay world of the C6 witness: the opened object is a regular
file. -/
def c6world : OverlayWorld := ⟨some ⟨1, FileKind.regular⟩, true, ⟨1, FileKind.regular⟩, true⟩

theorem socket_overlay_guard_witness :
    (∃ m, OverlayAction.errExitAction m ∈ socket_overlay c6world)
    ∧ ∀ src, OverlayAction.mountBindAction src ∉ socket_overlay c6world :=
  (socket_overlay_guard c6world).1 ⟨1, FileKind.regular⟩ rfl (by decide)

/-- The overlay world of the C7 failing input: at open time `proxy_path`
resolves to socket object 1, which is verified; before `mount(2)` runs the
path is re-pointed at object 2, a regular file. -/
def c7world : OverlayWorld :=
  ⟨some ⟨1, FileKind.sock⟩, true, ⟨2, FileKind.regular⟩, true⟩

/-- C7 (code bug): the mount source is re-resolved from `proxy_path` at
mount time, so an object substituted between the `fstat` verification and
the `mount` call is what gets mounted — the trace mounts object 2 although
object 1 was the one opened and verified (and although the code built
`/proc/self/fd/<fd>` precisely to refer to the verified object, it passes
`proxy_path`, not that string, to `mount`). -/
theorem socket_overlay_toctou :
    socket_overlay c7world
      = [OverlayAction.openProxy, OverlayAction.fstatAction,
          OverlayAction.buildFdPath,
          OverlayAction.mountBindAction ⟨2, FileKind.regular⟩,
          OverlayAction.closeAction]
    ∧ OverlayAction.mountBindAction ⟨2, FileKind.regular⟩ ∈ socket_overlay c7world
    ∧ (⟨2, FileKind.regular⟩ : FsObject) ≠ ⟨1, FileKind.sock⟩
    ∧ (⟨2, FileKind.regular⟩ : FsObject).kind ≠ FileKind.sock := by
  refine ⟨by decide, by decide, by decide, by decide⟩

/-! ## Staging directory: `dbus_create_user_dir` (dbus.c lines 153-171,
claim C10) -/

/-- What `stat` reports about the staging directory: mode bits and
ownership. -/
structure DirPerms where
  mode : Nat
  owner_uid : Nat
  owner_gid : Nat
deriving DecidableEq, Repr

/-- `dbus_create_user_dir` (dbus.c lines 153-171) acting on the staging
directory's state (`none` = `stat` fails, i.e. the directory does not
exist): when absent, `mkdir(0700)` (EEXIST tolerated) followed by
`set_perms(path, uid, gid, 0700)` and `ASSERT_PERMS` leaves the directory
with exactly mode 0700 and the caller's uid/gid (`set_perms` and
`ASSERT_PERMS` live outside this slice; per spec.md section 4.3 step 1
they establish and check exactly this mode and ownership).  When `stat`
succeeds the function does nothing at all. -/
def dbus_create_user_dir (uid gid : Nat) (fs : Option DirPerms) : DirPerms :=
  match fs with
  | none => ⟨0o700, uid, gid⟩
  | some d => d

/-- C10 counterexample: a staging directory that pre-exists with mode 0755
owned by root is left untouched, so the proxy child is forked (dbus.c line
174 runs first, then line 185) with the directory NOT having mode 0700 nor
the invoking user's ownership. -/
theorem dbus_create_user_dir_counterexample :
    dbus_create_user_dir 1000 1000 (some ⟨0o755, 0, 0⟩) = ⟨0o755, 0, 0⟩
    ∧ (⟨0o755, 0, 0⟩ : DirPerms) ≠ ⟨0o700, 1000, 1000⟩ := by
  refine ⟨rfl, by decide⟩

/-- C10 amended: if the staging directory does not exist when start runs,
it is created with mode 0700 owned by the invoking user before the fork;
if it already exists it is left unchanged, so the 0700/ownership property
holds at fork time whenever the directory was absent or already satisfied
it; and the creation step is idempotent — invoked on an existing directory
it does not fail and preserves an already-correct state. -/
theorem dbus_create_user_dir_amended (uid gid : Nat) (fs : Option DirPerms) :
    (fs = none → dbus_create_user_dir uid gid fs = ⟨0o700, uid, gid⟩)
    ∧ (∀ d, fs = some d → dbus_create_user_dir uid gid fs = d)
    ∧ ((fs = none ∨ fs = some ⟨0o700, uid, gid⟩) →
        dbus_create_user_dir uid gid fs = ⟨0o700, uid, gid⟩)
    ∧ dbus_create_user_dir uid gid (some (dbus_create_user_dir uid gid fs))
        = dbus_create_user_dir uid gid fs := by
  refine ⟨?_, ?_, ?_, ?_⟩
  · rintro rfl; rfl
  · rintro d rfl; rfl
  · rintro (rfl | rfl) <;> rfl
  · rfl

theorem dbus_create_user_dir_amended_witness :
    ((some (⟨0o700, 6, 6⟩ : DirPerms) = none →
        dbus_create_user_dir 6 6 (some ⟨0o700, 6, 6⟩) = ⟨0o700, 6, 6⟩)
    ∧ (∀ d, some (⟨0o700, 6, 6⟩ : DirPerms) = some d →
        dbus_create_user_dir 6 6 (some ⟨0o700, 6, 6⟩) = d)
    ∧ ((some (⟨0o700, 6, 6⟩ : DirPerms) = none
          ∨ some (⟨0o700, 6, 6⟩ : DirPerms) = some ⟨0o700, 6, 6⟩) →
        dbus_create_user_dir 6 6 (some ⟨0o700, 6, 6⟩) = ⟨0o700, 6, 6⟩)
    ∧ dbus_create_user_dir 6 6 (some (dbus_create_user_dir 6 6 (some ⟨0o700, 6, 6⟩)))
        = dbus_create_user_dir 6 6 (some ⟨0o700, 6, 6⟩)) :=
  dbus_create_user_dir_amended 6 6 (some ⟨0o700, 6, 6⟩)

end FirejailDbus
